import Mathlib

/-!
Verification development for the `rmc` voxel-game core (`rmc-common`).

The source files embedded here are `src/rmc-common/src/world.rs` (world storage,
raycast), `src/rmc-common/src/block.rs` (block kinds), `src/rmc-common/src/light.rs`
(light propagation), `src/rmc-common/src/game.rs` (the block-update drain) and
`src/rmc-common/src/physics.rs` (swept-AABB collision).

Modelling conventions:
* `u8` values are `Nat` (no arithmetic in the source can exceed 255 on them except
  via saturating/checked ops, which are modelled explicitly).
* `i32` arithmetic that can overflow is modelled with explicit wrap-around
  (`wrap32`), matching release-mode (wrapping) semantics; `as usize` casts of
  `i32` values are modelled by `toUSize` (sign extension modulo `2^64`).
* `f32` values are modelled exactly where the source uses them:
  - the chunk-coordinate computation `(e as f32 / 16.0).floor() as i32` is
    modelled by `world_to_chunk`, which first rounds the integer `e` to the
    nearest f32-representable integer (24-bit significand, ties to even,
    `roundF32`) and then floor-divides by 16; this is exact IEEE-754 behaviour
    for every `i32` input (conversion rounds to nearest-even; division by the
    power of two 16 and `floor` are exact in f32 for these magnitudes),
  - `physics.rs` arithmetic is carried out over `ℚ` extended with signed
    infinities (`EF`); on the rationals the source's operations (`+`, `-`,
    comparisons, division guarded to be by nonzero values) incur no f32
    rounding concerns for the small literal inputs of the claims, and decimal
    literals such as `1.2` are taken as the rationals they denote,
  - the raycast in `world.rs` manipulates NaN and infinities, so it is modelled
    over `F` (`ℚ` plus `±∞` plus `NaN`) with the IEEE rules for those special
    values; square roots that are not rational (hence whose correctly rounded
    f32 value is not a rational of the model) make the model return `none`
    ("the model cannot follow the computation exactly") rather than guess.
-/

/-- `vek::Vec3<α>`. -/
structure Vec3 (α : Type) where
  x : α
  y : α
  z : α
deriving DecidableEq, Repr

instance [Add α] : Add (Vec3 α) := ⟨fun a b => ⟨a.x + b.x, a.y + b.y, a.z + b.z⟩⟩

def Vec3.map (f : α → β) (v : Vec3 α) : Vec3 β := ⟨f v.x, f v.y, f v.z⟩

/-- `v as i32` wrapping semantics for a mathematical-integer intermediate value:
wrap into `[-2^31, 2^31)`. -/
def wrap32 (v : Int) : Int := (v + 2 ^ 31) % 2 ^ 32 - 2 ^ 31

/-- `as_::<usize>()` applied to an `i32` component: sign-extension, i.e. the
value modulo `2^64`. -/
def toUSize (v : Int) : Nat := (v % 2 ^ 64).toNat

/-- Round `a` to the nearest multiple of `u` (`u > 0`), ties to the even
multiple.  `a - a % u` is the lower multiple; its quotient `a / u` is the f32
significand it corresponds to, so "even multiple" is "even quotient". -/
def roundHalfEven (a u : Nat) : Nat :=
  if 2 * (a % u) < u then a - a % u
  else if 2 * (a % u) > u then a - a % u + u
  else if (a / u) % 2 = 0 then a - a % u else a - a % u + u

/-- Distance between consecutive binary32-representable integers near `a`
(`2^(⌊log2 a⌋ - 23)` for `a > 2^24`), tabulated for the `i32` magnitude range
`a ≤ 2^31`: integers up to `2^24` are all representable. -/
def f32ulp (a : Nat) : Nat :=
  if a ≤ 2 ^ 24 then 1
  else if a < 2 ^ 25 then 2
  else if a < 2 ^ 26 then 4
  else if a < 2 ^ 27 then 8
  else if a < 2 ^ 28 then 16
  else if a < 2 ^ 29 then 32
  else if a < 2 ^ 30 then 64
  else if a < 2 ^ 31 then 128
  else 256

/-- The nonnegative integer nearest to `a` among those representable in IEEE-754
binary32 (24-bit significand), ties to even: `a` is rounded to the grid of
multiples of the ulp (spacing 1, i.e. exactly, up to `2^24`). -/
def roundNatF32 (a : Nat) : Nat := roundHalfEven a (f32ulp a)

/-- `e as f32` for an `i32` value `e`, as an exact integer (the conversion
rounds to nearest-even; it is symmetric in sign). -/
def roundF32 (e : Int) : Int :=
  if 0 ≤ e then (roundNatF32 e.toNat : Int) else -(roundNatF32 (-e).toNat : Int)

namespace world

/-- `world.rs`: `pub const CHUNK_SIZE: usize = 16`. -/
def CHUNK_SIZE : Nat := 16

/-- `world.rs`: `Block { id: u8, light: u8 }` (this older revision of the world
module carries its own block type). -/
structure Block where
  id : Nat
  light : Nat
deriving DecidableEq, Repr

def Block.AIR : Block := ⟨0, 0⟩
def Block.TEST : Block := ⟨1, 0⟩
def Block.GRASS : Block := ⟨2, 0⟩
def Block.LANTERN : Block := ⟨3, 0⟩

instance : Inhabited Block := ⟨Block.AIR⟩

/-- `ndarray::Array3<α>`: a shape together with the stored elements.  `get` is
`None` exactly when an index is out of range on some axis, `set` likewise fails
(models the indexing panic) out of range. -/
structure Array3 (α : Type) where
  dims : Vec3 Nat
  data : Nat → Nat → Nat → α

def Array3.get (a : Array3 α) (i : Vec3 Nat) : Option α :=
  if i.x < a.dims.x ∧ i.y < a.dims.y ∧ i.z < a.dims.z then
    some (a.data i.x i.y i.z)
  else
    none

def Array3.set (a : Array3 α) (i : Vec3 Nat) (v : α) : Option (Array3 α) :=
  if i.x < a.dims.x ∧ i.y < a.dims.y ∧ i.z < a.dims.z then
    some ⟨a.dims, fun x y z => if x = i.x ∧ y = i.y ∧ z = i.z then v else a.data x y z⟩
  else
    none

/-- `world.rs`: `Chunk { blocks: Rc<Array3<Block>> }`.  The `Rc` copy-on-write
sharing has no observable effect on values, so the model stores the array
directly. -/
structure Chunk where
  blocks : Array3 Block

/-- `Chunk::new` / `Chunk::default`: a `CHUNK_SIZE³` array of default blocks. -/
def Chunk.new : Chunk :=
  ⟨⟨⟨CHUNK_SIZE, CHUNK_SIZE, CHUNK_SIZE⟩, fun _ _ _ => Block.AIR⟩⟩

/-- `world.rs`: `World { origin, chunks, extents }`. -/
structure World where
  origin : Vec3 Int
  chunks : Array3 Chunk
  extents : Vec3 Int

/-- `World::new(origin)`: `extents = 1` on each axis, a `(2*extents+1)³` array of
default chunks. -/
def World.new (origin : Vec3 Int) : World :=
  ⟨origin, ⟨⟨3, 3, 3⟩, fun _ _ _ => Chunk.new⟩, ⟨1, 1, 1⟩⟩

/-- The per-axis chunk coordinate `(e as f32 / CHUNK_SIZE as f32).floor() as i32`
computed inside `World::chunk_index`: round `e` to f32 (exact, `roundF32`), then
floor-divide by 16 (the f32 division by 16 and `floor` are exact). -/
def world_to_chunk (e : Int) : Int := Int.fdiv (roundF32 e) 16

/-- `World::chunk_index`: chunk coordinate of `position`, offset from `origin`;
`None` if the offset exceeds `extents` on any axis (`any(|(o, e)| o > e)`),
otherwise the array index `offset + extents` cast `as_::<usize>()`. -/
def World.chunk_index (w : World) (position : Vec3 Int) : Option (Vec3 Nat) :=
  if wrap32 (world_to_chunk position.x - w.origin.x) > w.extents.x ∨
      wrap32 (world_to_chunk position.y - w.origin.y) > w.extents.y ∨
      wrap32 (world_to_chunk position.z - w.origin.z) > w.extents.z then
    none
  else
    some ⟨toUSize (wrap32 (wrap32 (world_to_chunk position.x - w.origin.x) + w.extents.x)),
      toUSize (wrap32 (wrap32 (world_to_chunk position.y - w.origin.y) + w.extents.y)),
      toUSize (wrap32 (wrap32 (world_to_chunk position.z - w.origin.z) + w.extents.z))⟩

/-- `World::chunk_at`: `chunks.get(chunk_index(position)?)`. -/
def World.chunk_at (w : World) (position : Vec3 Int) : Option Chunk :=
  (w.chunk_index position).bind fun i => w.chunks.get i

/-- `position.map(|e| e.rem_euclid(CHUNK_SIZE as i32)).as_::<usize>()`: the local
cell of a world position inside its chunk (`Int.emod` is the Euclidean
remainder, in `[0, 16)`, so the `usize` cast is exact). -/
def chunk_offset (position : Vec3 Int) : Vec3 Nat :=
  ⟨(position.x % 16).toNat, (position.y % 16).toNat, (position.z % 16).toNat⟩

/-- `World::get_block`. -/
def World.get_block (w : World) (position : Vec3 Int) : Option Block :=
  (w.chunk_at position).bind fun chunk => chunk.blocks.get (chunk_offset position)

/-- `World::set_block`.  The source does `self.chunk_at_mut(position).unwrap()`
and then writes through the reference after cloning the block array; `none`
models the `unwrap` panic on an out-of-window position. -/
def World.set_block (w : World) (position : Vec3 Int) (blk : Block) : Option World :=
  (w.chunk_index position).bind fun i =>
    (w.chunks.get i).bind fun chunk =>
      (chunk.blocks.set (chunk_offset position) blk).bind fun newBlocks =>
        (w.chunks.set i ⟨newBlocks⟩).map fun newChunks =>
          { w with chunks := newChunks }

/-- Well-formedness of a `World` value as produced by `World::new` (and preserved
by the operations): componentwise, `extents` is a nonnegative `i32` with
`2*extents+1` still in `i32` range, `origin` is an `i32`, the chunk array has
shape `2*extents+1`, and every stored chunk has a `16³` block array. -/
def World.WF (w : World) : Prop :=
  (0 ≤ w.extents.x ∧ 0 ≤ w.extents.y ∧ 0 ≤ w.extents.z) ∧
  (2 * w.extents.x + 1 < 2 ^ 31 ∧ 2 * w.extents.y + 1 < 2 ^ 31 ∧
    2 * w.extents.z + 1 < 2 ^ 31) ∧
  (-2 ^ 31 ≤ w.origin.x ∧ w.origin.x < 2 ^ 31 ∧ -2 ^ 31 ≤ w.origin.y ∧
    w.origin.y < 2 ^ 31 ∧ -2 ^ 31 ≤ w.origin.z ∧ w.origin.z < 2 ^ 31) ∧
  (w.chunks.dims = ⟨(2 * w.extents.x + 1).toNat, (2 * w.extents.y + 1).toNat,
    (2 * w.extents.z + 1).toNat⟩) ∧
  (∀ i j k, ((w.chunks.data i j k).blocks.dims = ⟨16, 16, 16⟩))

end world

/-- A `Vec3<i32>` value: every component in `i32` range. -/
def InI32 (p : Vec3 Int) : Prop :=
  -2 ^ 31 ≤ p.x ∧ p.x < 2 ^ 31 ∧ -2 ^ 31 ≤ p.y ∧ p.y < 2 ^ 31 ∧
    -2 ^ 31 ≤ p.z ∧ p.z < 2 ^ 31

/-- Step of `isqrt`: grow `acc` while `(acc+1)² ≤ n`, fuel-bounded. -/
def isqrtGo (n : Nat) : Nat → Nat → Nat
  | 0, acc => acc
  | f + 1, acc => if (acc + 1) * (acc + 1) ≤ n then isqrtGo n f (acc + 1) else acc

/-- `⌊√n⌋` (fuel `n` always suffices, see `isqrt_spec`). -/
def isqrt (n : Nat) : Nat := isqrtGo n n 0

/-- Exact rational square root: `some r` with `r * r = q` when one exists,
`none` when `√q` is irrational (or `q < 0`).  Since `q.num / q.den` is in lowest
terms, `√q ∈ ℚ` iff numerator and denominator are perfect squares. -/
def ratSqrt (q : ℚ) : Option ℚ :=
  if q < 0 then none
  else
    let sn := isqrt q.num.toNat
    let sd := isqrt q.den
    if sn * sn = q.num.toNat ∧ sd * sd = q.den then some ((sn : ℚ) / (sd : ℚ)) else none

namespace physics

/-- f32 values arising in `sweep_test`: rationals plus the two infinities
produced by `calc_axis_rel` for zero-velocity axes.  (No NaN can arise: the
divisions are guarded by `velocity == 0.0`, and `±∞` never meet in a sum.) -/
inductive EF where
  | fin : ℚ → EF
  | pinf : EF
  | ninf : EF
deriving DecidableEq, Repr

/-- Strict `<` on `EF` (total here; no NaN in this fragment). -/
def EF.blt : EF → EF → Bool
  | .fin a, .fin b => a < b
  | .fin _, .pinf => true
  | .fin _, .ninf => false
  | .pinf, _ => false
  | .ninf, .ninf => false
  | .ninf, _ => true

/-- `f32::max`. -/
def EF.max (a b : EF) : EF := if EF.blt a b then b else a

/-- `f32::min`. -/
def EF.min (a b : EF) : EF := if EF.blt b a then b else a

/-- `vek::Aabb<f32>`. -/
structure Aabb where
  min : Vec3 ℚ
  max : Vec3 ℚ
deriving DecidableEq, Repr

/-- `physics.rs`: `SweepBox { collider, velocity }`. -/
structure SweepBox where
  collider : Aabb
  velocity : Vec3 ℚ
deriving DecidableEq, Repr

/-- `physics.rs`: `SweepTestResult { normal, time }`.  The normal is `none` when
the source computes `Vec3::normalized()` of a diagonal vector whose f32 value is
an irrational square root, hence not representable in the rational model (only
the edge/corner branches; face normals are exact). -/
structure SweepTestResult where
  normal : Option (Vec3 ℚ)
  time : EF
deriving DecidableEq, Repr

/-- `f32::signum` restricted to the values reachable here: `1` for positive or
(positive) zero, `-1` for negative (`-0.0` does not arise from these inputs). -/
def qSign (q : ℚ) : ℚ := if q < 0 then -1 else 1

/-- `sweep_test`'s inner `calc_axis_abs`. -/
def calc_axis_abs (a_min a_max b_min b_max direction : ℚ) : ℚ × ℚ :=
  if direction > 0 then (b_min - a_max, b_max - a_min) else (b_max - a_min, b_min - a_max)

/-- `sweep_test`'s inner `calc_axis_rel`: `(-∞, ∞)` on a zero-velocity axis. -/
def calc_axis_rel (enter exit velocity : ℚ) : EF × EF :=
  if velocity = 0 then (EF.ninf, EF.pinf) else (EF.fin (enter / velocity), EF.fin (exit / velocity))

/-- `sweep_test`'s inner `norm`. -/
def norm (v vel : ℚ) : ℚ := if v ≠ 0 then -qSign v else -qSign vel

/-- `Vec3::normalized()`, exactly when representable: `none` if the magnitude is
irrational (or the vector is zero, where f32 yields NaN components). -/
def vecNormalized (v : Vec3 ℚ) : Option (Vec3 ℚ) :=
  match ratSqrt (v.x * v.x + v.y * v.y + v.z * v.z) with
  | some m => if m = 0 then none else some ⟨v.x / m, v.y / m, v.z / m⟩
  | none => none

/-- `physics.rs`: `sweep_test(a, b)`. -/
def sweep_test (a : SweepBox) (b : Aabb) : Option SweepTestResult :=
  let xab := calc_axis_abs a.collider.min.x a.collider.max.x b.min.x b.max.x a.velocity.x
  let yab := calc_axis_abs a.collider.min.y a.collider.max.y b.min.y b.max.y a.velocity.y
  let zab := calc_axis_abs a.collider.min.z a.collider.max.z b.min.z b.max.z a.velocity.z
  let xr := calc_axis_rel xab.1 xab.2 a.velocity.x
  let yr := calc_axis_rel yab.1 yab.2 a.velocity.y
  let zr := calc_axis_rel zab.1 zab.2 a.velocity.z
  let x_enter := xr.1
  let y_enter := yr.1
  let z_enter := zr.1
  let entry_time := EF.max (EF.max x_enter y_enter) z_enter
  let exit_time := EF.min (EF.min xr.2 yr.2) zr.2
  if EF.blt exit_time entry_time ∨
      (EF.blt x_enter (EF.fin 0) ∧ EF.blt y_enter (EF.fin 0) ∧ EF.blt z_enter (EF.fin 0)) ∨
      EF.blt (EF.fin 1) x_enter ∨ EF.blt (EF.fin 1) y_enter ∨ EF.blt (EF.fin 1) z_enter then
    none
  else
    let x_norm := norm xab.1 a.velocity.x
    let y_norm := norm yab.1 a.velocity.y
    let z_norm := norm zab.1 a.velocity.z
    let normal : Option (Vec3 ℚ) :=
      if EF.blt y_enter x_enter ∧ EF.blt z_enter x_enter then some ⟨x_norm, 0, 0⟩
      else if EF.blt x_enter y_enter ∧ EF.blt z_enter y_enter then some ⟨0, y_norm, 0⟩
      else if EF.blt x_enter z_enter ∧ EF.blt y_enter z_enter then some ⟨0, 0, z_norm⟩
      else if EF.blt z_enter x_enter ∧ EF.blt z_enter y_enter then
        vecNormalized ⟨x_norm, y_norm, 0⟩
      else if EF.blt y_enter x_enter ∧ EF.blt y_enter z_enter then
        vecNormalized ⟨x_norm, 0, z_norm⟩
      else if EF.blt x_enter y_enter ∧ EF.blt x_enter z_enter then
        vecNormalized ⟨0, y_norm, z_norm⟩
      else vecNormalized ⟨x_norm, y_norm, z_norm⟩
    some ⟨normal, entry_time⟩

end physics

namespace world

/-- f32 values arising in `raycast_generalized`: rationals, infinities and NaN.
`-0.0` is not representable; it does not arise on the executions the theorems
below follow (inputs are rationals, and no negative zero is produced before the
points where the results are read off). -/
inductive F where
  | fin : ℚ → F
  | pinf : F
  | ninf : F
  | nan : F
deriving DecidableEq, Repr

/-- IEEE addition. -/
def F.add : F → F → F
  | .nan, _ => .nan
  | _, .nan => .nan
  | .fin a, .fin b => .fin (a + b)
  | .fin _, .pinf => .pinf
  | .fin _, .ninf => .ninf
  | .pinf, .fin _ => .pinf
  | .ninf, .fin _ => .ninf
  | .pinf, .pinf => .pinf
  | .ninf, .ninf => .ninf
  | .pinf, .ninf => .nan
  | .ninf, .pinf => .nan

/-- IEEE multiplication. -/
def F.mul : F → F → F
  | .nan, _ => .nan
  | _, .nan => .nan
  | .fin a, .fin b => .fin (a * b)
  | .fin a, .pinf => if a = 0 then .nan else if 0 < a then .pinf else .ninf
  | .fin a, .ninf => if a = 0 then .nan else if 0 < a then .ninf else .pinf
  | .pinf, .fin b => if b = 0 then .nan else if 0 < b then .pinf else .ninf
  | .ninf, .fin b => if b = 0 then .nan else if 0 < b then .ninf else .pinf
  | .pinf, .pinf => .pinf
  | .ninf, .ninf => .pinf
  | .pinf, .ninf => .ninf
  | .ninf, .pinf => .ninf

/-- IEEE division (the zero here is `+0.0`). -/
def F.div : F → F → F
  | .nan, _ => .nan
  | _, .nan => .nan
  | .fin a, .fin b =>
    if b = 0 then (if a = 0 then .nan else if 0 < a then .pinf else .ninf) else .fin (a / b)
  | .fin _, .pinf => .fin 0
  | .fin _, .ninf => .fin 0
  | .pinf, .fin b => if b < 0 then .ninf else .pinf
  | .ninf, .fin b => if b < 0 then .pinf else .ninf
  | .pinf, _ => .nan
  | .ninf, _ => .nan

/-- `f32::abs`. -/
def F.abs : F → F
  | .fin a => .fin |a|
  | .nan => .nan
  | _ => .pinf

/-- IEEE `==` (NaN compares unequal to everything, itself included). -/
def F.beq : F → F → Bool
  | .fin a, .fin b => a = b
  | .pinf, .pinf => true
  | .ninf, .ninf => true
  | _, _ => false

/-- IEEE `<` (false on any NaN operand). -/
def F.blt : F → F → Bool
  | .nan, _ => false
  | _, .nan => false
  | .fin a, .fin b => a < b
  | .fin _, .pinf => true
  | .fin _, .ninf => false
  | .pinf, _ => false
  | .ninf, .ninf => false
  | .ninf, _ => true

/-- IEEE square root, exactly when the model can represent it: NaN and `+∞` map
through, negative arguments give NaN, and a nonnegative rational gives its exact
root when that root is rational — otherwise `none` (the correctly rounded f32
root is not a rational the model can name). -/
def F.sqrtOpt : F → Option F
  | .nan => some .nan
  | .pinf => some .pinf
  | .ninf => some .nan
  | .fin q => if q < 0 then some .nan else (ratSqrt q).map F.fin

/-- `Vec3::magnitude` = `sqrt(x*x + y*y + z*z)`. -/
def magnitudeOpt (v : Vec3 F) : Option F :=
  F.sqrtOpt (F.add (F.add (F.mul v.x v.x) (F.mul v.y v.y)) (F.mul v.z v.z))

/-- `Vec3::normalized` = `self / self.magnitude()` (componentwise scalar
division). -/
def normalizedOpt (v : Vec3 F) : Option (Vec3 F) :=
  (magnitudeOpt v).map fun m => ⟨F.div v.x m, F.div v.y m, F.div v.z m⟩

/-- `world.rs`: `RaycastOutput { position, normal }` (the `i8` normal is carried
as `Int`). -/
structure RaycastOutput where
  position : Vec3 Int
  normal : Vec3 Int
deriving DecidableEq, Repr

/-- `e.signum() as i32` for a (finite, `+0.0`-signed) f32 component. -/
def sgnInt (q : ℚ) : Int := if q < 0 then -1 else 1

/-- Component of a `Vec3` by axis number, as Rust's `v[axis]`. -/
def axisGet (v : Vec3 α) (i : Nat) : α :=
  if i = 0 then v.x else if i = 1 then v.y else v.z

/-- Update a `Vec3` component by axis number. -/
def axisSet (v : Vec3 α) (i : Nat) (a : α) : Vec3 α :=
  if i = 0 then { v with x := a } else if i = 1 then { v with y := a } else { v with z := a }

/-- `t_max.into_iter().enumerate().min_by(partial_cmp.unwrap_or(Equal))`: index
of the first strictly-least component (Rust's `min_by` keeps the earlier element
unless a later one compares `Less`; NaN comparisons become `Equal`). -/
def minAxis (t : Vec3 F) : Nat :=
  let i1 := if F.blt t.y t.x then 1 else 0
  if F.blt t.z (axisGet t i1) then 2 else i1

/-- `pos.distance(grid_pos.map(|e| e as f32))`, exactly when rational. -/
def distOpt (pos : Vec3 ℚ) (g : Vec3 Int) : Option ℚ :=
  ratSqrt ((pos.x - g.x) * (pos.x - g.x) + (pos.y - g.y) * (pos.y - g.y) +
    (pos.z - g.z) * (pos.z - g.z))

/-- The `while` loop of `raycast_generalized`, fuel-bounded.  Outer `none` means
the model cannot follow the f32 computation exactly (irrational distance) or ran
out of fuel; `some r` is the faithful result (`r` is the source's `Option`). -/
def raycastLoop (pos dir : Vec3 ℚ) (radius : ℚ) (step : Vec3 Int) (t_delta : Vec3 F)
    (has_voxel : Vec3 Int → Bool) :
    Nat → Vec3 Int → Vec3 F → Option (Option RaycastOutput)
  | 0, _, _ => none
  | fuel + 1, grid_pos, t_max =>
    match distOpt pos grid_pos with
    | none => none
    | some d =>
      if d ≤ radius then
        let min_axis := minAxis t_max
        let grid_pos1 := axisSet grid_pos min_axis (axisGet grid_pos min_axis + axisGet step min_axis)
        let t_max1 := axisSet t_max min_axis (F.add (axisGet t_max min_axis) (axisGet t_delta min_axis))
        match distOpt pos grid_pos1 with
        | none => none
        | some d1 =>
          if d1 > radius then some none
          else if has_voxel grid_pos1 then
            some (some ⟨grid_pos1, axisSet ⟨0, 0, 0⟩ min_axis (-sgnInt (axisGet dir min_axis))⟩)
          else raycastLoop pos dir radius step t_delta has_voxel fuel grid_pos1 t_max1
      else some none

/-- `world.rs`: `raycast_generalized(pos, dir, radius, voxel_size, has_voxel)`.
Outer `none` is the model declining (irrational f32 value reached, or fuel
exhausted); `some r` is exactly the source's return value `r`. -/
def raycast_generalized (pos dir : Vec3 ℚ) (radius voxel_size : ℚ)
    (has_voxel : Vec3 Int → Bool) (fuel : Nat) : Option (Option RaycastOutput) :=
  match normalizedOpt (dir.map F.fin) with
  | none => none
  | some nrm =>
    match magnitudeOpt nrm with
    | none => none
    | some m =>
      if F.beq m (F.fin 0) then some none
      else
        let step : Vec3 Int := dir.map sgnInt
        let t_delta : Vec3 F := dir.map fun e => F.abs (F.div (F.fin voxel_size) (F.fin e))
        let ipos : Vec3 Int := pos.map fun q => Int.floor q
        if has_voxel ipos then some (some ⟨ipos, ⟨0, 0, 0⟩⟩)
        else
          let dist : Vec3 ℚ :=
            ⟨if step.x > 0 then (ipos.x : ℚ) + voxel_size - pos.x else pos.x - (ipos.x : ℚ),
              if step.y > 0 then (ipos.y : ℚ) + voxel_size - pos.y else pos.y - (ipos.y : ℚ),
              if step.z > 0 then (ipos.z : ℚ) + voxel_size - pos.z else pos.z - (ipos.z : ℚ)⟩
          let t_max : Vec3 F :=
            ⟨if F.blt t_delta.x F.pinf then F.mul t_delta.x (F.fin dist.x) else F.pinf,
              if F.blt t_delta.y F.pinf then F.mul t_delta.y (F.fin dist.y) else F.pinf,
              if F.blt t_delta.z F.pinf then F.mul t_delta.z (F.fin dist.z) else F.pinf⟩
          raycastLoop pos dir radius step t_delta has_voxel fuel ipos t_max

end world

namespace block

/-- `block.rs`: `BlockType` with its `enum_assoc`-derived properties. -/
inductive BlockType where
  | Air
  | Test
  | Grass
  | Lantern
  | Mesh
  | Wood
  | Stone
deriving DecidableEq, Repr

/-- `#[func(pub fn light_emission(&self) -> Option<u8>)]`: only `Lantern` emits,
value 224. -/
def BlockType.light_emission : BlockType → Option Nat
  | .Lantern => some 224
  | _ => none

/-- `#[func(pub fn light_passing(&self) -> bool { false })]`: `Air` and `Mesh`. -/
def BlockType.light_passing : BlockType → Bool
  | .Air => true
  | .Mesh => true
  | _ => false

/-- `block.rs`: `Block { ty, light: u8, open_to_sky, occluded }` (the current
block type, used by `light.rs` and `game.rs`). -/
structure Block where
  ty : BlockType
  light : Nat
  open_to_sky : Bool
  occluded : Bool
deriving DecidableEq, Repr

/-- `Block::new(ty)`. -/
def Block.new (ty : BlockType) : Block := ⟨ty, 0, false, false⟩

def Block.AIR : Block := Block.new .Air
def Block.LANTERN : Block := Block.new .Lantern

end block

/-- Modelled from the spec: `world::face_neighbors` belongs to the current
revision of the world module, whose file is not among the sources (the provided
`world.rs` is an older revision without it); per the spec ("enqueue ... for all
six face-neighbors", "max over face-neighbors") it lists the six face-adjacent
positions of `p`. -/
def face_neighbors (p : Vec3 Int) : List (Vec3 Int) :=
  [⟨p.x + 1, p.y, p.z⟩, ⟨p.x - 1, p.y, p.z⟩, ⟨p.x, p.y + 1, p.z⟩, ⟨p.x, p.y - 1, p.z⟩,
    ⟨p.x, p.y, p.z + 1⟩, ⟨p.x, p.y, p.z - 1⟩]

namespace light

/-- Squared Euclidean distance between two integer positions (a natural
number). -/
def distSq (a b : Vec3 Int) : Nat :=
  ((a.x - b.x) * (a.x - b.x) + (a.y - b.y) * (a.y - b.y) + (a.z - b.z) * (a.z - b.z)).toNat

/-- `(16.0 * distance) as u8` where `distance` is the f32 Euclidean distance
between the integer positions: `⌊16·√s⌋ = ⌊√(256·s)⌋ = Nat.sqrt (256 * s)`.
This matches the f32 computation exactly for the squared distances `s ≤ 4`
admitted by the source's `assert!(distance <= 2.0)` (every call site passes
face neighbors, where `s = 1` and the attenuation is 16). -/
def attenuation (a b : Vec3 Int) : Nat := isqrt (256 * distSq a b)

/-- `light.rs`: `calculate_light_from((position, block), (p, b), source)`.
`checked_sub(..).unwrap_or(0)` is truncated subtraction on `Nat`. -/
def calculate_light_from (pb : Vec3 Int × block.Block) (nb : Vec3 Int × block.Block)
    (source : Option (Vec3 Int)) : Nat :=
  let new_light := nb.2.light - attenuation pb.1 nb.1
  if new_light < pb.2.light ∧ some nb.1 = source then 0 else new_light

/-- `light.rs`: `calculate_light((position, block), checks, source)`:
`checks.map(calculate_light_from ..).max().unwrap_or(0)` (fold of `Nat.max`
over the list, base 0). -/
def calculate_light (pb : Vec3 Int × block.Block) (checks : List (Vec3 Int × block.Block))
    (source : Option (Vec3 Int)) : Nat :=
  (checks.map fun c => calculate_light_from pb c source).foldr Nat.max 0

/-- `light.rs`: `calculate_block_light(world, position, block, source)`.  The
`&World` parameter is represented by its `get_block` map (the only operation
the function uses; the current revision of the world module is not among the
sources).  `all_neighbors` keeps exactly the loaded face-neighbors, paired with
their blocks. -/
def calculate_block_light (getBlock : Vec3 Int → Option block.Block) (position : Vec3 Int)
    (blk : block.Block) (source : Option (Vec3 Int)) : Nat :=
  if blk.ty.light_passing ∧ blk.open_to_sky then 255
  else
    match blk.ty.light_emission with
    | some emission => emission
    | none =>
      if blk.ty.light_passing then
        calculate_light (position, blk)
          ((face_neighbors position).filterMap fun p => (getBlock p).map fun b => (p, b))
          source
      else 0

/-- The propagation rule exactly as claim C2 words it (no exception for the
`source` neighbor): 255 if light-passing and open to sky; else the fixed
emission; else, if light-passing, the maximum over loaded face-neighbors of
(neighbor light − 16, floored at 0), 0 with no loaded neighbor; else 0. -/
def claimed_block_light (getBlock : Vec3 Int → Option block.Block) (position : Vec3 Int)
    (blk : block.Block) : Nat :=
  if blk.ty.light_passing ∧ blk.open_to_sky then 255
  else
    match blk.ty.light_emission with
    | some emission => emission
    | none =>
      if blk.ty.light_passing then
        ((face_neighbors position).filterMap fun p => (getBlock p).map fun b => b.light - 16).foldr
          Nat.max 0
      else 0

/-- The amended propagation rule (claim C2 corrected): as `claimed_block_light`,
except that a loaded face-neighbor that is the declared `source` contributes 0
whenever its floored attenuated value is strictly below the block's current
light. -/
def amended_block_light (getBlock : Vec3 Int → Option block.Block) (position : Vec3 Int)
    (blk : block.Block) (source : Option (Vec3 Int)) : Nat :=
  if blk.ty.light_passing ∧ blk.open_to_sky then 255
  else
    match blk.ty.light_emission with
    | some emission => emission
    | none =>
      if blk.ty.light_passing then
        ((face_neighbors position).filterMap fun p =>
          (getBlock p).map fun b =>
            if b.light - 16 < blk.light ∧ some p = source then 0 else b.light - 16).foldr
          Nat.max 0
      else 0

/-- The contribution of one neighbor as the corrected claim C6 words it: the
declared `source` neighbor contributes 0 exactly when its attenuated value is
strictly below the block's previous light; otherwise the attenuated value is
used unchanged. -/
def amended_light_from (pb : Vec3 Int × block.Block) (nb : Vec3 Int × block.Block)
    (source : Option (Vec3 Int)) : Nat :=
  if nb.2.light - attenuation pb.1 nb.1 < pb.2.light ∧ some nb.1 = source then 0
  else nb.2.light - attenuation pb.1 nb.1

end light

namespace game

/-- `game.rs`: `BlockUpdate { target, source, state_changed }`. -/
structure BlockUpdate where
  target : Vec3 Int
  source : Option (Vec3 Int)
  state_changed : Bool
deriving DecidableEq, Repr

/-- The `replaces` accumulator of `Game::update_blocks` (a `HashMap` keyed by
position; only `contains_key`/`insert` are used, so an association list keyed on
the first component is a faithful model). -/
def containsKey (m : List (Vec3 Int × block.Block)) (p : Vec3 Int) : Bool :=
  m.any fun e => e.1 = p

/-- Result of processing one `BlockUpdate` in the body of the
`for BlockUpdate { .. } in dirty_blocks` loop of `Game::update_blocks`. -/
structure ProcessResult where
  replaces : List (Vec3 Int × block.Block)
  enqueued : List BlockUpdate
  processed : Option block.Block
deriving Repr

/-- The body of the per-update loop of `Game::update_blocks` (`game.rs`): skip
if the target's chunk is unloaded or the position is already scheduled for
replacement; recompute `open_to_sky`, `occluded` and `light`; record a
replacement if the block changed; and enqueue the six face-neighbor updates
when the update was a direct edit (`source=None`), a value changed, or
`state_changed` was carried.  `getBlock` stands for `self.world.get_block`
(the stable snapshot the whole batch reads); `enqueued` lists the
`BlockUpdate`s pushed to `dirty_blocks`, in order; `processed` is the
recomputed block (`None` when the update was skipped). -/
def process_block_update (getBlock : Vec3 Int → Option block.Block)
    (replaces : List (Vec3 Int × block.Block)) (u : BlockUpdate) : ProcessResult :=
  match getBlock u.target with
  | none => ⟨replaces, [], none⟩
  | some blk =>
    if containsKey replaces u.target then ⟨replaces, [], none⟩
    else
      let open_to_sky : Bool :=
        match getBlock (u.target + ⟨0, 1, 0⟩) with
        | some block_above => block_above.ty.light_passing && block_above.open_to_sky
        | none => true
      let occluded : Bool :=
        (face_neighbors u.target).all fun p =>
          match getBlock p with
          | some b => !b.ty.light_passing
          | none => false
      let withFlags : block.Block := { blk with open_to_sky := open_to_sky, occluded := occluded }
      let new_block : block.Block :=
        { withFlags with
          light := light.calculate_block_light getBlock u.target withFlags u.source }
      let replaces1 := if new_block ≠ blk then (u.target, new_block) :: replaces else replaces
      let should_notify : Bool :=
        blk.light != new_block.light || blk.open_to_sky != new_block.open_to_sky
      let enqueued :=
        if u.source.isNone || should_notify || u.state_changed then
          (face_neighbors u.target).map fun p => BlockUpdate.mk p (some p) should_notify
        else []
      ⟨replaces1, enqueued, some new_block⟩

end game

/-- Components of `p` lie in the range where `i32 → f32` conversion is exact
(magnitude at most `2^24`), so the f32 chunk coordinate is the exact floor
division. -/
def Exact24 (p : Vec3 Int) : Prop :=
  p.x.natAbs ≤ 2 ^ 24 ∧ p.y.natAbs ≤ 2 ^ 24 ∧ p.z.natAbs ≤ 2 ^ 24

/-- `position`'s chunk coordinate lies inside the loaded window: its offset from
`origin` is within `extents` on every axis. -/
def world.World.InWindow (w : world.World) (position : Vec3 Int) : Prop :=
  -w.extents.x ≤ world.world_to_chunk position.x - w.origin.x ∧
    world.world_to_chunk position.x - w.origin.x ≤ w.extents.x ∧
    -w.extents.y ≤ world.world_to_chunk position.y - w.origin.y ∧
    world.world_to_chunk position.y - w.origin.y ≤ w.extents.y ∧
    -w.extents.z ≤ world.world_to_chunk position.z - w.origin.z ∧
    world.world_to_chunk position.z - w.origin.z ≤ w.extents.z

/-- Concrete world map for the C2 counterexample: one loaded neighbor at
`(1,0,0)`, an air block with light 20; everything else unloaded. -/
def oneNeighborWorld : Vec3 Int → Option block.Block :=
  fun p => if p = ⟨1, 0, 0⟩ then some ⟨.Air, 20, false, false⟩ else none

/-- Concrete world map where every position holds a default air block. -/
def allAirWorld : Vec3 Int → Option block.Block := fun _ => some block.Block.AIR

instance (p : Vec3 Int) : Decidable (InI32 p) := by
  unfold InI32
  infer_instance

instance (p : Vec3 Int) : Decidable (Exact24 p) := by
  unfold Exact24
  infer_instance

instance (w : world.World) (p : Vec3 Int) : Decidable (w.InWindow p) := by
  unfold world.World.InWindow
  infer_instance

/-! ### Helper lemmas: the f32 rounding model and the window index arithmetic -/

theorem isqrtGo_spec (n : Nat) : ∀ f acc, acc * acc ≤ n → n ≤ acc + f →
    isqrtGo n f acc * isqrtGo n f acc ≤ n ∧ n < (isqrtGo n f acc + 1) * (isqrtGo n f acc + 1) := by
  intro f
  induction f with
  | zero =>
    intro acc h1 h2
    have hacc : acc ≤ 1 := by nlinarith
    unfold isqrtGo
    interval_cases acc <;> omega
  | succ f ih =>
    intro acc h1 h2
    unfold isqrtGo
    split
    · exact ih (acc + 1) (by assumption) (by omega)
    · exact ⟨h1, by omega⟩

/-- `isqrt` is the integer square root. -/
theorem isqrt_spec (n : Nat) : isqrt n * isqrt n ≤ n ∧ n < (isqrt n + 1) * (isqrt n + 1) :=
  isqrtGo_spec n n 0 (by omega) (by omega)

theorem roundHalfEven_bound (a u : Nat) (hu : 0 < u) :
    a ≤ roundHalfEven a u + u ∧ roundHalfEven a u ≤ a + u := by
  unfold roundHalfEven
  have h1 : a % u < u := Nat.mod_lt a hu
  have h2 : a % u ≤ a := Nat.mod_le a u
  split_ifs <;> omega

theorem roundHalfEven_one (a : Nat) : roundHalfEven a 1 = a := by
  unfold roundHalfEven
  split_ifs <;> omega

theorem f32ulp_pos (a : Nat) : 0 < f32ulp a ∧ f32ulp a ≤ 256 := by
  unfold f32ulp
  split_ifs <;> omega

theorem f32ulp_one {a : Nat} (h : a ≤ 2 ^ 24) : f32ulp a = 1 := by
  unfold f32ulp
  split_ifs <;> omega

/-- Conversion to f32 is exact on magnitudes up to `2^24`. -/
theorem roundNatF32_exact {a : Nat} (h : a ≤ 2 ^ 24) : roundNatF32 a = a := by
  unfold roundNatF32
  rw [f32ulp_one h, roundHalfEven_one]

theorem roundNatF32_bound (a : Nat) :
    a ≤ roundNatF32 a + 256 ∧ roundNatF32 a ≤ a + 256 := by
  unfold roundNatF32
  have h1 := f32ulp_pos a
  have h2 := roundHalfEven_bound a (f32ulp a) h1.1
  omega

theorem roundF32_exact {e : Int} (h : e.natAbs ≤ 2 ^ 24) : roundF32 e = e := by
  unfold roundF32
  split
  · rw [roundNatF32_exact (by omega)]; omega
  · rw [roundNatF32_exact (by omega)]; omega

theorem roundF32_bound (e : Int) : e - 256 ≤ roundF32 e ∧ roundF32 e ≤ e + 256 := by
  unfold roundF32
  have h1 := roundNatF32_bound e.toNat
  have h2 := roundNatF32_bound (-e).toNat
  split <;> omega

theorem world_to_chunk_ediv (e : Int) : world.world_to_chunk e = roundF32 e / 16 :=
  Int.fdiv_eq_ediv _ (by norm_num)

/-- For `i32` inputs the chunk coordinate has magnitude at most `2^28`. -/
theorem world_to_chunk_bound {e : Int} (h1 : -2 ^ 31 ≤ e) (h2 : e < 2 ^ 31) :
    (world.world_to_chunk e).natAbs ≤ 2 ^ 28 := by
  rw [world_to_chunk_ediv]
  have hb := roundF32_bound e
  omega

/-- On the f32-exact range the chunk coordinate is the plain floor division. -/
theorem world_to_chunk_exact {e : Int} (h : e.natAbs ≤ 2 ^ 24) :
    world.world_to_chunk e = e / 16 := by
  rw [world_to_chunk_ediv, roundF32_exact h]

/-- Per-axis behaviour of the window test and index computation of
`World::chunk_index`: with `c` the chunk coordinate, `g` the origin and `e` the
extent of one axis, the upper-bound test together with the bounds check of the
subsequent array access accepts exactly the offsets in `[-e, e]`, and on those
no wrap-around occurs, so the index is the true `offset + e`. -/
theorem axis_spec (c g e : Int) (hc : c.natAbs ≤ 2 ^ 28) (hg1 : -2 ^ 31 ≤ g) (hg2 : g < 2 ^ 31)
    (he : 0 ≤ e) (he2 : 2 * e + 1 < 2 ^ 31) :
    (¬ wrap32 (c - g) > e ∧ toUSize (wrap32 (wrap32 (c - g) + e)) < (2 * e + 1).toNat ↔
      (-e ≤ c - g ∧ c - g ≤ e)) ∧
    ((-e ≤ c - g ∧ c - g ≤ e) →
      wrap32 (c - g) = c - g ∧ toUSize (wrap32 (c - g + e)) = (c - g + e).toNat) := by
  unfold wrap32 toUSize
  omega

theorem axis_in (t e : Int) (he : 0 ≤ e) (he2 : 2 * e + 1 < 2 ^ 31) (h1 : -e ≤ t) (h2 : t ≤ e) :
    wrap32 t = t ∧ ¬ wrap32 t > e ∧ toUSize (wrap32 (t + e)) = (t + e).toNat ∧
      (t + e).toNat < (2 * e + 1).toNat := by
  unfold wrap32 toUSize
  omega

namespace world

theorem Array3.set_dims {α} {a a' : Array3 α} {i : Vec3 Nat} {v : α}
    (h : a.set i v = some a') : a'.dims = a.dims := by
  unfold Array3.set at h
  split at h
  · cases h; rfl
  · cases h

theorem Array3.set_isSome {α} {a : Array3 α} (i : Vec3 Nat) (v : α)
    (h : i.x < a.dims.x ∧ i.y < a.dims.y ∧ i.z < a.dims.z) : ∃ a', a.set i v = some a' := by
  unfold Array3.set
  rw [if_pos h]
  exact ⟨_, rfl⟩

theorem Array3.get_set_same {α} {a a' : Array3 α} {i : Vec3 Nat} {v : α}
    (h : a.set i v = some a') : a'.get i = some v := by
  unfold Array3.set at h
  split at h
  · cases h
    unfold Array3.get
    simp_all
  · cases h

theorem Array3.get_set_ne {α} {a a' : Array3 α} {i : Vec3 Nat} {v : α} (j : Vec3 Nat)
    (h : a.set i v = some a') (hne : j ≠ i) : a'.get j = a.get j := by
  unfold Array3.set at h
  split at h
  · cases h
    have hcond : ¬ (j.x = i.x ∧ j.y = i.y ∧ j.z = i.z) := by
      intro ⟨h1, h2, h3⟩
      exact hne (by cases j; cases i; simp_all)
    unfold Array3.get
    dsimp only
    rw [if_neg hcond]
  · cases h

theorem World.WF_new (o : Vec3 Int) (h : InI32 o) : (World.new o).WF := by
  unfold World.WF World.new
  exact ⟨⟨by norm_num, by norm_num, by norm_num⟩, ⟨by norm_num, by norm_num, by norm_num⟩, h, rfl,
    fun _ _ _ => rfl⟩

/-- In-window characterization of `chunk_index`: no wrap-around occurs and the
index is the true offset plus extents. -/
theorem World.chunk_index_in (w : World) (p : Vec3 Int) (hWF : w.WF) (hin : w.InWindow p) :
    w.chunk_index p =
      some ⟨(world_to_chunk p.x - w.origin.x + w.extents.x).toNat,
        (world_to_chunk p.y - w.origin.y + w.extents.y).toNat,
        (world_to_chunk p.z - w.origin.z + w.extents.z).toNat⟩ := by
  obtain ⟨⟨hex, hey, hez⟩, ⟨hex2, hey2, hez2⟩, _, _, _⟩ := hWF
  obtain ⟨h1, h2, h3, h4, h5, h6⟩ := hin
  have ax := axis_in _ _ hex hex2 h1 h2
  have ay := axis_in _ _ hey hey2 h3 h4
  have az := axis_in _ _ hez hez2 h5 h6
  unfold World.chunk_index
  rw [ax.1, ay.1, az.1]
  rw [if_neg (by push_neg; exact ⟨by omega, by omega, by omega⟩)]
  rw [ax.2.2.1, ay.2.2.1, az.2.2.1]

/-- The in-window index is inside the array bounds. -/
theorem World.chunk_index_in_dims (w : World) (p : Vec3 Int) (hWF : w.WF) (hin : w.InWindow p) :
    (world_to_chunk p.x - w.origin.x + w.extents.x).toNat < w.chunks.dims.x ∧
      (world_to_chunk p.y - w.origin.y + w.extents.y).toNat < w.chunks.dims.y ∧
      (world_to_chunk p.z - w.origin.z + w.extents.z).toNat < w.chunks.dims.z := by
  obtain ⟨⟨hex, hey, hez⟩, ⟨hex2, hey2, hez2⟩, _, hdims, _⟩ := hWF
  obtain ⟨h1, h2, h3, h4, h5, h6⟩ := hin
  rw [hdims]
  dsimp only
  exact ⟨by omega, by omega, by omega⟩

/-- Out-of-window positions read as `None`: either the explicit upper-bound test
fires, or the index computation produces an index outside the array. -/
theorem World.get_block_none (w : World) (p : Vec3 Int) (hWF : w.WF) (hp : InI32 p)
    (hout : ¬ w.InWindow p) : w.get_block p = none := by
  obtain ⟨⟨hex, hey, hez⟩, ⟨hex2, hey2, hez2⟩, ⟨hgx1, hgx2, hgy1, hgy2, hgz1, hgz2⟩, hdims, _⟩ :=
    hWF
  obtain ⟨hpx1, hpx2, hpy1, hpy2, hpz1, hpz2⟩ := hp
  have hax := axis_spec (world_to_chunk p.x) w.origin.x w.extents.x
    (world_to_chunk_bound hpx1 hpx2) hgx1 hgx2 hex hex2
  have hay := axis_spec (world_to_chunk p.y) w.origin.y w.extents.y
    (world_to_chunk_bound hpy1 hpy2) hgy1 hgy2 hey hey2
  have haz := axis_spec (world_to_chunk p.z) w.origin.z w.extents.z
    (world_to_chunk_bound hpz1 hpz2) hgz1 hgz2 hez hez2
  unfold World.get_block World.chunk_at World.chunk_index
  split
  · rfl
  · rename_i hcond
    push_neg at hcond
    obtain ⟨hc1, hc2, hc3⟩ := hcond
    simp only [Option.some_bind]
    unfold Array3.get
    rw [if_neg, Option.none_bind]
    rw [hdims]
    dsimp only
    intro ⟨hux, huy, huz⟩
    exact hout ⟨(hax.1.mp ⟨by omega, hux⟩).1, (hax.1.mp ⟨by omega, hux⟩).2,
      (hay.1.mp ⟨by omega, huy⟩).1, (hay.1.mp ⟨by omega, huy⟩).2,
      (haz.1.mp ⟨by omega, huz⟩).1, (haz.1.mp ⟨by omega, huz⟩).2⟩

end world

theorem chunk_offset_lt (p : Vec3 Int) :
    (world.chunk_offset p).x < 16 ∧ (world.chunk_offset p).y < 16 ∧
      (world.chunk_offset p).z < 16 := by
  unfold world.chunk_offset
  dsimp only
  omega

theorem set_block_then_get (w : world.World) (p : Vec3 Int) (b : world.Block)
    (hWF : w.WF) (hin : w.InWindow p) :
    ∃ w', w.set_block p b = some w' ∧ w'.get_block p = some b := by
  have hidx := world.World.chunk_index_in w p hWF hin
  have hdims := world.World.chunk_index_in_dims w p hWF hin
  have hbdims := hWF.2.2.2.2 (world.world_to_chunk p.x - w.origin.x + w.extents.x).toNat
    (world.world_to_chunk p.y - w.origin.y + w.extents.y).toNat
    (world.world_to_chunk p.z - w.origin.z + w.extents.z).toNat
  unfold world.World.set_block
  rw [hidx]
  simp only [Option.some_bind]
  have hget : w.chunks.get ⟨(world.world_to_chunk p.x - w.origin.x + w.extents.x).toNat,
      (world.world_to_chunk p.y - w.origin.y + w.extents.y).toNat,
      (world.world_to_chunk p.z - w.origin.z + w.extents.z).toNat⟩ =
      some (w.chunks.data (world.world_to_chunk p.x - w.origin.x + w.extents.x).toNat
        (world.world_to_chunk p.y - w.origin.y + w.extents.y).toNat
        (world.world_to_chunk p.z - w.origin.z + w.extents.z).toNat) := by
    unfold world.Array3.get
    rw [if_pos]
    exact hdims
  rw [hget]
  simp only [Option.some_bind]
  obtain ⟨nb, hnb⟩ := world.Array3.set_isSome (a := (w.chunks.data _ _ _).blocks)
    (world.chunk_offset p) b (by rw [hbdims]; exact chunk_offset_lt p)
  rw [hnb]
  simp only [Option.some_bind]
  obtain ⟨nc, hnc⟩ := world.Array3.set_isSome (a := w.chunks)
    ⟨(world.world_to_chunk p.x - w.origin.x + w.extents.x).toNat,
      (world.world_to_chunk p.y - w.origin.y + w.extents.y).toNat,
      (world.world_to_chunk p.z - w.origin.z + w.extents.z).toNat⟩ (world.Chunk.mk nb)
    (by exact hdims)
  rw [hnc]
  simp only [Option.map_some']
  refine ⟨_, rfl, ?_⟩
  unfold world.World.get_block world.World.chunk_at
  rw [show ({ w with chunks := nc } : world.World).chunk_index p =
    some ⟨(world.world_to_chunk p.x - w.origin.x + w.extents.x).toNat,
      (world.world_to_chunk p.y - w.origin.y + w.extents.y).toNat,
      (world.world_to_chunk p.z - w.origin.z + w.extents.z).toNat⟩ from hidx]
  simp only [Option.some_bind]
  rw [world.Array3.get_set_same hnc]
  simp only [Option.some_bind]
  exact world.Array3.get_set_same hnb

theorem exact_offset_eq {a b : Int} (ha : a.natAbs ≤ 2 ^ 24) (hb : b.natAbs ≤ 2 ^ 24)
    (hdiv : world.world_to_chunk a = world.world_to_chunk b)
    (hmod : (a % 16).toNat = (b % 16).toNat) : a = b := by
  rw [world_to_chunk_exact ha, world_to_chunk_exact hb] at hdiv
  omega

theorem set_block_frame (w : world.World) (p q : Vec3 Int) (b : world.Block)
    (w' : world.World) (hWF : w.WF) (hq32 : InI32 q) (hpe : Exact24 p) (hqe : Exact24 q)
    (hne : q ≠ p) (hset : w.set_block p b = some w') :
    w'.get_block q = w.get_block q ∧ w'.origin = w.origin ∧ w'.extents = w.extents := by
  obtain ⟨⟨hex, hey, hez⟩, ⟨hex2, hey2, hez2⟩, ⟨hgx1, hgx2, hgy1, hgy2, hgz1, hgz2⟩, hdims,
    hchunks⟩ := hWF
  obtain ⟨hqx1, hqx2, hqy1, hqy2, hqz1, hqz2⟩ := hq32
  obtain ⟨hpex, hpey, hpez⟩ := hpe
  obtain ⟨hqex, hqey, hqez⟩ := hqe
  -- decompose the successful set_block
  unfold world.World.set_block at hset
  rcases hip : w.chunk_index p with _ | ip
  · rw [hip, Option.none_bind] at hset; cases hset
  rw [hip, Option.some_bind] at hset
  rcases hch : w.chunks.get ip with _ | ch
  · rw [hch, Option.none_bind] at hset; cases hset
  rw [hch, Option.some_bind] at hset
  rcases hnb : ch.blocks.set (world.chunk_offset p) b with _ | nb
  · rw [hnb, Option.none_bind] at hset; cases hset
  rw [hnb, Option.some_bind] at hset
  rcases hnc : w.chunks.set ip ⟨nb⟩ with _ | nc
  · rw [hnc, Option.map_none'] at hset; cases hset
  rw [hnc, Option.map_some'] at hset
  injection hset with hset
  subst hset
  refine ⟨?_, rfl, rfl⟩
  -- the read side
  have hidxeq : (⟨w.origin, nc, w.extents⟩ : world.World).chunk_index q = w.chunk_index q := rfl
  unfold world.World.get_block world.World.chunk_at
  dsimp only
  rw [hidxeq]
  rcases hiq : w.chunk_index q with _ | iq
  · rfl
  simp only [Option.some_bind]
  have hncdims := world.Array3.set_dims hnc
  by_cases hlt : iq.x < w.chunks.dims.x ∧ iq.y < w.chunks.dims.y ∧ iq.z < w.chunks.dims.z
  case neg =>
    -- out of array bounds on both sides
    have h1 : nc.get iq = none := by
      unfold world.Array3.get
      rw [hncdims, if_neg hlt]
    have h2 : w.chunks.get iq = none := by
      unfold world.Array3.get
      rw [if_neg hlt]
    rw [h1, h2]
  case pos =>
  by_cases hiqp : iq = ip
  case neg =>
    -- a different chunk: untouched
    rw [world.Array3.get_set_ne iq hnc hiqp]
  case pos =>
  rw [hiqp] at hiq hlt ⊢
  clear hiqp
  -- same chunk: recover the windows and indices of p and q
  have hcpx := world_to_chunk_bound (by omega : -2 ^ 31 ≤ p.x) (by omega : p.x < 2 ^ 31)
  have hcpy := world_to_chunk_bound (by omega : -2 ^ 31 ≤ p.y) (by omega : p.y < 2 ^ 31)
  have hcpz := world_to_chunk_bound (by omega : -2 ^ 31 ≤ p.z) (by omega : p.z < 2 ^ 31)
  have hcqx := world_to_chunk_bound (by omega : -2 ^ 31 ≤ q.x) (by omega : q.x < 2 ^ 31)
  have hcqy := world_to_chunk_bound (by omega : -2 ^ 31 ≤ q.y) (by omega : q.y < 2 ^ 31)
  have hcqz := world_to_chunk_bound (by omega : -2 ^ 31 ≤ q.z) (by omega : q.z < 2 ^ 31)
  have hapx := axis_spec (world.world_to_chunk p.x) w.origin.x w.extents.x hcpx hgx1 hgx2 hex hex2
  have hapy := axis_spec (world.world_to_chunk p.y) w.origin.y w.extents.y hcpy hgy1 hgy2 hey hey2
  have hapz := axis_spec (world.world_to_chunk p.z) w.origin.z w.extents.z hcpz hgz1 hgz2 hez hez2
  have haqx := axis_spec (world.world_to_chunk q.x) w.origin.x w.extents.x hcqx hgx1 hgx2 hex hex2
  have haqy := axis_spec (world.world_to_chunk q.y) w.origin.y w.extents.y hcqy hgy1 hgy2 hey hey2
  have haqz := axis_spec (world.world_to_chunk q.z) w.origin.z w.extents.z hcqz hgz1 hgz2 hez hez2
  -- from the successful get at ip : ip is in bounds, so p's window test passed without wrap
  have hipdims : ip.x < w.chunks.dims.x ∧ ip.y < w.chunks.dims.y ∧ ip.z < w.chunks.dims.z := by
    by_contra hcon
    have : w.chunks.get ip = none := by
      unfold world.Array3.get
      rw [if_neg hcon]
    rw [this] at hch; cases hch
  unfold world.World.chunk_index at hip hiq
  split at hip
  · cases hip
  · rename_i hcondp
    push_neg at hcondp
    injection hip with hip
    split at hiq
    · cases hiq
    · rename_i hcondq
      push_neg at hcondq
      injection hiq with hiq
      rw [← hip] at hipdims
      rw [hdims] at hipdims
      dsimp only at hipdims
      have hwpx := hapx.1.mp ⟨by omega, by omega⟩
      have hwpy := hapy.1.mp ⟨by omega, by omega⟩
      have hwpz := hapz.1.mp ⟨by omega, by omega⟩
      rw [← hiq] at hlt
      rw [hdims] at hlt
      dsimp only at hlt
      have hwqx := haqx.1.mp ⟨by omega, by omega⟩
      have hwqy := haqy.1.mp ⟨by omega, by omega⟩
      have hwqz := haqz.1.mp ⟨by omega, by omega⟩
      -- indices agree => chunk coordinates agree
      have hiq2 := hiq.trans hip.symm
      have heqx : world.world_to_chunk q.x = world.world_to_chunk p.x := by
        have e1 := (hapx.2 hwpx).2
        have e2 := (haqx.2 hwqx).2
        have := congrArg Vec3.x hiq2
        dsimp only at this
        rw [(hapx.2 hwpx).1, (haqx.2 hwqx).1] at this
        rw [e1, e2] at this
        omega
      have heqy : world.world_to_chunk q.y = world.world_to_chunk p.y := by
        have e1 := (hapy.2 hwpy).2
        have e2 := (haqy.2 hwqy).2
        have := congrArg Vec3.y hiq2
        dsimp only at this
        rw [(hapy.2 hwpy).1, (haqy.2 hwqy).1] at this
        rw [e1, e2] at this
        omega
      have heqz : world.world_to_chunk q.z = world.world_to_chunk p.z := by
        have e1 := (hapz.2 hwpz).2
        have e2 := (haqz.2 hwqz).2
        have := congrArg Vec3.z hiq2
        dsimp only at this
        rw [(hapz.2 hwpz).1, (haqz.2 hwqz).1] at this
        rw [e1, e2] at this
        omega
      -- same chunk, so the cells must differ
      have hoff : world.chunk_offset q ≠ world.chunk_offset p := by
        intro hoe
        apply hne
        have hx := congrArg Vec3.x hoe
        have hy := congrArg Vec3.y hoe
        have hz := congrArg Vec3.z hoe
        unfold world.chunk_offset at hx hy hz
        dsimp only at hx hy hz
        have ex := exact_offset_eq hqex hpex heqx hx
        have ey := exact_offset_eq hqey hpey heqy hy
        have ez := exact_offset_eq hqez hpez heqz hz
        cases q; cases p
        simp_all
      rw [world.Array3.get_set_same hnc, hch]
      simp only [Option.some_bind]
      exact world.Array3.get_set_ne (world.chunk_offset q) hnb hoff

/-- Every face neighbor is at unit distance, so its attenuation is 16. -/
theorem attenuation_face (pos : Vec3 Int) :
    ∀ n ∈ face_neighbors pos, light.attenuation pos n = 16 := by
  intro n hn
  unfold face_neighbors at hn
  simp only [List.mem_cons, List.not_mem_nil, or_false] at hn
  have h16 : isqrt 256 = 16 := by decide
  rcases hn with h | h | h | h | h | h <;> subst h <;>
    · unfold light.attenuation light.distSq
      dsimp only
      ring_nf
      norm_num [h16]

/-- Unfolding of `calculate_light` over the loaded-neighbor list: with all
attenuations equal to 16, it is the max-fold of the per-neighbor contributions
with the `source` exception. -/
theorem calculate_light_face (getBlock : Vec3 Int → Option block.Block) (pos : Vec3 Int)
    (blk : block.Block) (src : Option (Vec3 Int)) (L : List (Vec3 Int))
    (hL : ∀ n ∈ L, light.attenuation pos n = 16) :
    light.calculate_light (pos, blk) (L.filterMap fun n => (getBlock n).map fun b2 => (n, b2))
        src =
      (L.filterMap fun n => (getBlock n).map fun b2 =>
        if b2.light - 16 < blk.light ∧ some n = src then 0 else b2.light - 16).foldr Nat.max 0 := by
  induction L with
  | nil => rfl
  | cons a L ih =>
    simp only [List.filterMap_cons]
    cases hga : getBlock a with
    | none => exact ih fun n hn => hL n (List.mem_cons_of_mem a hn)
    | some b2 =>
      simp only [Option.map_some']
      have ih2 := ih fun n hn => hL n (List.mem_cons_of_mem a hn)
      unfold light.calculate_light at ih2 ⊢
      simp only [List.map_cons, List.foldr_cons]
      rw [ih2]
      unfold light.calculate_light_from
      rw [hL a (List.mem_cons_self a L)]

theorem calculate_block_light_eq_amended (getBlock : Vec3 Int → Option block.Block)
    (pos : Vec3 Int) (blk : block.Block) (src : Option (Vec3 Int)) :
    light.calculate_block_light getBlock pos blk src =
      light.amended_block_light getBlock pos blk src := by
  unfold light.calculate_block_light light.amended_block_light
  by_cases h1 : blk.ty.light_passing = true ∧ blk.open_to_sky = true
  · rw [if_pos h1, if_pos h1]
  · rw [if_neg h1, if_neg h1]
    cases hem : blk.ty.light_emission with
    | some em => simp only [hem]
    | none =>
      simp only [hem]
      by_cases h2 : blk.ty.light_passing = true
      · rw [if_pos h2, if_pos h2]
        exact calculate_light_face getBlock pos blk src (face_neighbors pos)
          (attenuation_face pos)
      · rw [if_neg h2, if_neg h2]

theorem calculate_light_eq_amended (pb : Vec3 Int × block.Block)
    (checks : List (Vec3 Int × block.Block)) (src : Option (Vec3 Int)) :
    light.calculate_light pb checks src =
      (checks.map fun c => light.amended_light_from pb c src).foldr Nat.max 0 := rfl

theorem processed_open_to_sky (getBlock : Vec3 Int → Option block.Block)
    (replaces : List (Vec3 Int × block.Block)) (u : game.BlockUpdate) (nb : block.Block)
    (h : (game.process_block_update getBlock replaces u).processed = some nb) :
    (nb.open_to_sky = true ↔
      getBlock (u.target + ⟨0, 1, 0⟩) = none ∨
        ∃ ab, getBlock (u.target + ⟨0, 1, 0⟩) = some ab ∧
          ab.ty.light_passing = true ∧ ab.open_to_sky = true) := by
  unfold game.process_block_update at h
  split at h
  · simp at h
  · split at h
    · simp at h
    · dsimp only at h
      injection h with h
      subst h
      dsimp only
      cases hab : getBlock (u.target + ⟨0, 1, 0⟩) with
      | none => simp
      | some ab =>
        simp only [Bool.and_eq_true, Option.some.injEq]
        constructor
        · intro ⟨ha, hb⟩
          exact Or.inr ⟨ab, rfl, ha, hb⟩
        · intro hor
          rcases hor with hcon | ⟨ab2, hab2, ha, hb⟩
          · cases hcon
          · cases hab2
            exact ⟨ha, hb⟩

/-! ### The claims -/

/-- C1: for every world position `p` whose chunk coordinate (as the code
computes it, f32 floor division by 16) lies inside the loaded window — offset
from `origin` within `extents` on every axis — and every block `b`,
`set_block p b` succeeds and a subsequent `get_block p` returns `some b`; both
address the same local cell (the Euclidean remainder of `p` mod 16), so
negative coordinates round-trip as well. -/
theorem claim_C1_round_trip (w : world.World) (p : Vec3 Int) (b : world.Block)
    (hWF : w.WF) (hin : w.InWindow p) :
    ∃ w', w.set_block p b = some w' ∧ w'.get_block p = some b :=
  set_block_then_get w p b hWF hin

theorem claim_C1_round_trip_witness :
    ∃ w', (world.World.new ⟨0, 0, 0⟩).set_block ⟨-4, 4, -1⟩ world.Block.GRASS = some w' ∧
      w'.get_block ⟨-4, 4, -1⟩ = some world.Block.GRASS :=
  claim_C1_round_trip (world.World.new ⟨0, 0, 0⟩) ⟨-4, 4, -1⟩ world.Block.GRASS
    (world.World.WF_new ⟨0, 0, 0⟩ (by decide)) (by decide)

/-- C2 counterexample: the claim omits the `source` exception.  With prior
light 10, a single loaded face-neighbor `(1,0,0)` of light 20 that is the
declared source, the claimed rule gives `max(20-16) = 4`, but the code zeroes
the source neighbor's contribution (since `4 < 10`) and returns 0. -/
theorem claim_C2_counterexample :
    light.calculate_block_light oneNeighborWorld ⟨0, 0, 0⟩
        ⟨.Air, 10, false, false⟩ (some ⟨1, 0, 0⟩) = 0 ∧
      light.claimed_block_light oneNeighborWorld ⟨0, 0, 0⟩ ⟨.Air, 10, false, false⟩ = 4 := by
  decide

/-- C2 (amended): `calculate_block_light` implements the claimed rule — 255 for
light-passing and open to sky, else the fixed emission, else for light-passing
the max over loaded face-neighbors of (light − 16 floored at 0), else 0 —
except that a face-neighbor equal to the declared `source` contributes 0
whenever its attenuated value is strictly below the block's current light. -/
theorem claim_C2_light_rule (getBlock : Vec3 Int → Option block.Block) (pos : Vec3 Int)
    (blk : block.Block) (src : Option (Vec3 Int)) :
    light.calculate_block_light getBlock pos blk src =
      light.amended_block_light getBlock pos blk src :=
  calculate_block_light_eq_amended getBlock pos blk src

/-- C3: `World::set_block` on a position whose chunk is outside the window does
not return a recoverable error — it `unwrap`s `chunk_at_mut` and panics
(modelled as `none`).  Position `(-20,4,4)` has chunk coordinate `-2` on the x
axis, outside the default window `[-1,1]` around origin 0. -/
theorem claim_C3_set_block_unloaded :
    (world.World.new ⟨0, 0, 0⟩).set_block ⟨-20, 4, 4⟩ world.Block.TEST = none := rfl

/-- C4: a zero-length direction does not make `raycast_generalized` return
`None`.  The guard `dir.normalized().magnitude() == 0.0` never fires on a zero
vector — `normalized` is `(NaN,NaN,NaN)`, its magnitude NaN, and `NaN == 0.0`
is false — so the traversal proceeds and, with the start voxel solid, the
function returns `Some` (start position, zero normal). -/
theorem claim_C4_zero_dir :
    world.raycast_generalized ⟨1 / 2, 1 / 2, 1 / 2⟩ ⟨0, 0, 0⟩ 2 1 (fun _ => true) 5 =
      some (some ⟨⟨0, 0, 0⟩, ⟨0, 0, 0⟩⟩) := by
  norm_num [world.raycast_generalized, world.normalizedOpt, world.magnitudeOpt, world.F.sqrtOpt,
    world.F.mul, world.F.add, world.F.div, world.F.beq, ratSqrt, isqrt, isqrtGo, Vec3.map,
    world.sgnInt]

/-- C5: the sweep-test literal case — a unit box at the origin with velocity
`(1.2, 0, 0)` (the rational 6/5) against the unit box at `(2,2,0)` — collides
with normal `(-1,0,0)` at time exactly 5/6 (≈ 0.8333). -/
theorem claim_C5_sweep_literal :
    physics.sweep_test ⟨⟨⟨0, 0, 0⟩, ⟨1, 1, 1⟩⟩, ⟨6 / 5, 0, 0⟩⟩ ⟨⟨2, 2, 0⟩, ⟨3, 3, 1⟩⟩ =
      some ⟨some ⟨-1, 0, 0⟩, physics.EF.fin (5 / 6)⟩ := by
  norm_num [physics.sweep_test, physics.calc_axis_abs, physics.calc_axis_rel, physics.EF.max,
    physics.EF.min, physics.EF.blt, physics.norm, physics.qSign]

/-- C6 counterexample: the claim says a source neighbor is excluded when its
contribution would exceed the prior value.  With prior light 10 and a source
neighbor of light 50, the contribution `50 - 16 = 34` exceeds 10 and is *used*:
the neighbor-max computation returns 34, raising the light above its prior
value.  (The code's exception fires only when the contribution is *below* the
prior value.) -/
theorem claim_C6_counterexample :
    light.calculate_light (⟨0, 0, 0⟩, ⟨.Air, 10, false, false⟩)
        [((⟨1, 0, 0⟩ : Vec3 Int), ⟨.Air, 50, false, false⟩)] (some ⟨1, 0, 0⟩) = 34 ∧ 10 < 34 := by
  decide

/-- C6 (amended): in the neighbor-max computation each contribution follows
`amended_light_from`: a neighbor that is the declared `source` contributes 0
exactly when its attenuated value is strictly *below* the block's previous
light; otherwise (including when it exceeds the prior value) the attenuated
value is used unchanged. -/
theorem claim_C6_source_exclusion (pb : Vec3 Int × block.Block)
    (checks : List (Vec3 Int × block.Block)) (src : Option (Vec3 Int)) :
    light.calculate_light pb checks src =
      (checks.map fun c => light.amended_light_from pb c src).foldr Nat.max 0 :=
  calculate_light_eq_amended pb checks src

/-- C7: the cascade updates enqueued for the six face-neighbors carry
`source = Some(neighbor)` — each enqueued update's source equals its *own*
target — not the processed update's target `(0,0,0)` as the claim states.
(Processing a direct edit at `(0,0,0)` in an all-air world.) -/
theorem claim_C7_enqueue_source :
    (game.process_block_update allAirWorld [] ⟨⟨0, 0, 0⟩, none, true⟩).enqueued.length = 6 ∧
      (game.process_block_update allAirWorld [] ⟨⟨0, 0, 0⟩, none, true⟩).enqueued.all
        (fun e => e.source == some e.target) = true ∧
      (game.process_block_update allAirWorld [] ⟨⟨0, 0, 0⟩, none, true⟩).enqueued.all
        (fun e => e.source != some (⟨0, 0, 0⟩ : Vec3 Int)) = true := by
  decide

/-- C8: for every processed update (target chunk loaded, not already replaced),
the recomputed `open_to_sky` is true exactly when the block directly above is
absent (world edge) or is light-passing and itself open to sky. -/
theorem claim_C8_open_to_sky (getBlock : Vec3 Int → Option block.Block)
    (replaces : List (Vec3 Int × block.Block)) (u : game.BlockUpdate) (nb : block.Block)
    (h : (game.process_block_update getBlock replaces u).processed = some nb) :
    (nb.open_to_sky = true ↔
      getBlock (u.target + ⟨0, 1, 0⟩) = none ∨
        ∃ ab, getBlock (u.target + ⟨0, 1, 0⟩) = some ab ∧
          ab.ty.light_passing = true ∧ ab.open_to_sky = true) :=
  processed_open_to_sky getBlock replaces u nb h

theorem claim_C8_open_to_sky_witness :
    (game.process_block_update allAirWorld [] ⟨⟨0, 0, 0⟩, none, true⟩).processed =
        some block.Block.AIR ∧
      (block.Block.AIR.open_to_sky = true ↔
        allAirWorld ((⟨0, 0, 0⟩ : Vec3 Int) + ⟨0, 1, 0⟩) = none ∨
          ∃ ab, allAirWorld ((⟨0, 0, 0⟩ : Vec3 Int) + ⟨0, 1, 0⟩) = some ab ∧
            ab.ty.light_passing = true ∧ ab.open_to_sky = true) :=
  ⟨by decide, claim_C8_open_to_sky allAirWorld [] ⟨⟨0, 0, 0⟩, none, true⟩ block.Block.AIR
    (by decide)⟩

/-- C9 counterexample: far from the origin the f32 chunk coordinate aliases
distinct cells.  In a window centered at chunk x-coordinate `2^26`, writing at
`p = (2^30+1, 0, 0)` also changes what `get_block` returns at the distinct
position `q = (2^30+17, 0, 0)`: both convert to the same f32 value `2^30`,
hence the same chunk `2^26` and (being 16 apart) the same local cell. -/
theorem claim_C9_counterexample :
    (world.World.new ⟨2 ^ 26, 0, 0⟩).InWindow ⟨2 ^ 30 + 1, 0, 0⟩ ∧
      (⟨2 ^ 30 + 17, 0, 0⟩ : Vec3 Int) ≠ ⟨2 ^ 30 + 1, 0, 0⟩ ∧
      (world.World.new ⟨2 ^ 26, 0, 0⟩).get_block ⟨2 ^ 30 + 17, 0, 0⟩ = some world.Block.AIR ∧
      ((world.World.new ⟨2 ^ 26, 0, 0⟩).set_block ⟨2 ^ 30 + 1, 0, 0⟩ world.Block.GRASS).bind
        (fun w' => w'.get_block ⟨2 ^ 30 + 17, 0, 0⟩) = some world.Block.GRASS := by
  refine ⟨by decide, by decide, by decide, by decide⟩

/-- C9 (amended): within the f32-exact coordinate range (components of
magnitude ≤ 2^24), `set_block p b` changes only the cell at `p`: whenever it
succeeds, `get_block q` is unchanged for every `q ≠ p`, and `origin` and
`extents` are unchanged.  (Outside that range distinct positions can alias the
same chunk cell, see the counterexample.) -/
theorem claim_C9_frame (w : world.World) (p q : Vec3 Int) (b : world.Block)
    (hWF : w.WF) (hq32 : InI32 q) (hpe : Exact24 p) (hqe : Exact24 q) (hne : q ≠ p) :
    ((w.set_block p b).bind fun w' => w'.get_block q) =
        ((w.set_block p b).bind fun _ => w.get_block q) ∧
      ((w.set_block p b).map fun w' => w'.origin) = ((w.set_block p b).map fun _ => w.origin) ∧
      ((w.set_block p b).map fun w' => w'.extents) =
        ((w.set_block p b).map fun _ => w.extents) := by
  rcases hset : w.set_block p b with _ | w'
  · exact ⟨rfl, rfl, rfl⟩
  · have hf := set_block_frame w p q b w' hWF hq32 hpe hqe hne hset
    simp only [Option.bind_some, Option.map_some']
    exact ⟨hf.1, by rw [hf.2.1], by rw [hf.2.2]⟩

theorem claim_C9_frame_witness :
    ((((world.World.new ⟨0, 0, 0⟩).set_block ⟨-4, 4, -1⟩ world.Block.GRASS).bind
          fun w' => w'.get_block ⟨-4, 4, -2⟩) =
        (((world.World.new ⟨0, 0, 0⟩).set_block ⟨-4, 4, -1⟩ world.Block.GRASS).bind
          fun _ => (world.World.new ⟨0, 0, 0⟩).get_block ⟨-4, 4, -2⟩) ∧
      (((world.World.new ⟨0, 0, 0⟩).set_block ⟨-4, 4, -1⟩ world.Block.GRASS).map
          fun w' => w'.origin) =
        (((world.World.new ⟨0, 0, 0⟩).set_block ⟨-4, 4, -1⟩ world.Block.GRASS).map
          fun _ => (world.World.new ⟨0, 0, 0⟩).origin) ∧
      (((world.World.new ⟨0, 0, 0⟩).set_block ⟨-4, 4, -1⟩ world.Block.GRASS).map
          fun w' => w'.extents) =
        (((world.World.new ⟨0, 0, 0⟩).set_block ⟨-4, 4, -1⟩ world.Block.GRASS).map
          fun _ => (world.World.new ⟨0, 0, 0⟩).extents)) :=
  claim_C9_frame (world.World.new ⟨0, 0, 0⟩) ⟨-4, 4, -1⟩ ⟨-4, 4, -2⟩ world.Block.GRASS
    (world.World.WF_new ⟨0, 0, 0⟩ (by decide)) (by decide) (by decide) (by decide) (by decide)

/-- C10: `get_block` is total and returns `None` for every `i32` position whose
chunk-coordinate offset from the origin leaves the window on any axis, in
either direction — the explicit test only checks the upper bound; offsets below
the window produce (after the `usize` cast) an index outside the array, which
the checked array access rejects. -/
theorem claim_C10_get_block_total (w : world.World) (p : Vec3 Int) (hWF : w.WF)
    (hp : InI32 p) (hout : ¬ w.InWindow p) : w.get_block p = none :=
  world.World.get_block_none w p hWF hp hout

theorem claim_C10_get_block_total_witness :
    (world.World.new ⟨0, 0, 0⟩).get_block ⟨-20, 4, 4⟩ = none :=
  claim_C10_get_block_total (world.World.new ⟨0, 0, 0⟩) ⟨-20, 4, 4⟩
    (world.World.WF_new ⟨0, 0, 0⟩ (by decide)) (by decide) (by decide)
